import Mathlib

set_option autoImplicit false

/-!
Verification development for the write-behind caching layer of this
repository. The repository sources are analysis reports carrying code
excerpts of the current implementation (AdaptiveMemoryCache.set /
evictSmart, the manager's deferred deleteEntry scheduling, and
BatchOperationManager.retryBatch); those excerpts are embedded here
directly. Components of the §4 design that have no code in the
repository (the write-behind put pipeline, backend version gate,
recovery queue, circuit breaker, read coordinator) are modelled from
the spec, as marked on each definition.
-/

/-! ### Association-list primitives (JS Map semantics) -/

/-- Lookup in an insertion-ordered association list (JS Map.get). -/
def lookupKey {A : Type} : List (String × A) → String → Option A
  | [], _ => none
  | (k, v) :: rest, key => if k = key then some v else lookupKey rest key

/-- JS Map.set: update in place when the key is present (insertion order kept),
otherwise append at the end. -/
def setKey {A : Type} : List (String × A) → String → A → List (String × A)
  | [], key, v => [(key, v)]
  | (k, w) :: rest, key, v =>
    if k = key then (key, v) :: rest else (k, w) :: setKey rest key v

/-- JS Map.delete: remove every binding of the key. -/
def eraseKey {A : Type} (l : List (String × A)) (key : String) : List (String × A) :=
  l.filter (fun p => p.1 ≠ key)

/-- Stable insertion by a boolean total preorder: x goes before the first
element y with le x y (ties keep the earlier element first). -/
def insertBy {A : Type} (le : A → A → Bool) (x : A) : List A → List A
  | [] => [x]
  | y :: ys => if le x y then x :: y :: ys else y :: insertBy le x ys

/-- Stable insertion sort, modelling JS Array.prototype.sort (stable). -/
def sortBy {A : Type} (le : A → A → Bool) : List A → List A
  | [] => []
  | x :: xs => insertBy le x (sortBy le xs)

/-! ### AdaptiveMemoryCache
Embedded from the excerpt in
analysis-database-operations-query-optimization-2025-08-08.md
(class AdaptiveMemoryCache: set, updateAccessPattern, adjustCacheSize,
evictSmart, getHitRate). The cache map and access-pattern map are
insertion-ordered association lists, matching JS Map iteration order. -/

structure CacheEntry (Data : Type) where
  data : Data
  size : Nat
  dirty : Bool
  lastAccessed : Nat
deriving DecidableEq

structure AdaptiveCache (Data : Type) where
  cache : List (String × CacheEntry Data)
  currentSize : Nat
  hits : Nat
  misses : Nat
  accessPatterns : List (String × Nat)
  adaptiveSize : Nat
  baseSize : Nat
  growthFactor : Rat
  shrinkFactor : Rat
deriving DecidableEq

/-- updateAccessPattern from the excerpt: bump the access count. The
excerpt also calls normalizeAccessPatterns on a 1 percent random draw;
that function's body is not part of the repository excerpt, so the
common (no-normalization) branch is modelled. -/
def updateAccessPattern {Data : Type} (c : AdaptiveCache Data) (id : String) :
    AdaptiveCache Data :=
  let current := (lookupKey c.accessPatterns id).getD 0
  { c with accessPatterns := setKey c.accessPatterns id (current + 1) }

/-- getHitRate from the excerpt. -/
def getHitRate {Data : Type} (c : AdaptiveCache Data) : Rat :=
  let totalRequests := c.hits + c.misses
  if totalRequests > 0 then (c.hits : Rat) / (totalRequests : Rat) else 0

/-- adjustCacheSize from the excerpt (logging omitted); 0.8 and 0.3 are
the excerpt's literals, Math.floor is Rat.floor composed with Int.toNat. -/
def adjustCacheSize {Data : Type} (c : AdaptiveCache Data) : AdaptiveCache Data :=
  let hitRate := getHitRate c
  let totalRequests := c.hits + c.misses
  if hitRate > 4/5 ∧ totalRequests > 1000 ∧ c.adaptiveSize < c.baseSize * 4 then
    { c with adaptiveSize := (((c.adaptiveSize : Rat) * c.growthFactor).floor).toNat }
  else if hitRate < 3/10 ∧ totalRequests > 1000 ∧ c.adaptiveSize > c.baseSize then
    { c with adaptiveSize := (((c.adaptiveSize : Rat) * c.shrinkFactor).floor).toNat }
  else c

/-- Access frequency of an id (accessPatterns.get(id) with default 0). -/
def freqOf (pats : List (String × Nat)) (id : String) : Nat :=
  (lookupKey pats id).getD 0

/-- The evictSmart sort comparator: descending by access frequency
(bFreq - aFreq), ties broken descending by lastAccessed
(b.lastAccessed - a.lastAccessed). le a b = true keeps a before b. -/
def evictBefore {Data : Type} (pats : List (String × Nat))
    (a b : String × CacheEntry Data) : Bool :=
  let aFreq := freqOf pats a.1
  let bFreq := freqOf pats b.1
  if aFreq ≠ bFreq then decide (bFreq < aFreq)
  else decide (b.2.lastAccessed ≤ a.2.lastAccessed)

/-- The eviction loop of evictSmart: walk the sorted snapshot, stop once
freedSpace ≥ requiredSpace, and delete only entries with dirty = false
(the excerpt's comment: do not evict dirty entries). -/
def evictLoop {Data : Type} :
    List (String × CacheEntry Data) → AdaptiveCache Data → Nat → Nat →
    AdaptiveCache Data
  | [], c, _, _ => c
  | (id, e) :: rest, c, requiredSpace, freedSpace =>
    if requiredSpace ≤ freedSpace then c
    else if e.dirty then evictLoop rest c requiredSpace freedSpace
    else
      let c' : AdaptiveCache Data :=
        { c with cache := eraseKey c.cache id,
                 currentSize := c.currentSize - e.size,
                 accessPatterns := eraseKey c.accessPatterns id }
      evictLoop rest c' requiredSpace (freedSpace + e.size)

/-- evictSmart from the excerpt: sort a snapshot of the entries, then
evict non-dirty entries until enough space is freed. -/
def evictSmart {Data : Type} (c : AdaptiveCache Data) (requiredSpace : Nat) :
    AdaptiveCache Data :=
  let entries := sortBy (evictBefore c.accessPatterns) c.cache
  evictLoop entries c requiredSpace 0

/-- storeEntry is invoked by set but its body is not part of the
repository excerpt. Modelled from the spec: at most one entry per key
resides in the store and currentSize is the sum of stored sizes (§3
invariants), so storing replaces any previous entry for the key,
reclaims its recorded size, and accounts the new size; lastAccessed is
the supplied timestamp. -/
def storeEntry {Data : Type} (c : AdaptiveCache Data) (id : String)
    (data : Data) (size : Nat) (dirty : Bool) (now : Nat) : AdaptiveCache Data :=
  let reclaimed :=
    match lookupKey c.cache id with
    | some old => old.size
    | none => 0
  { c with cache := setKey c.cache id ⟨data, size, dirty, now⟩,
           currentSize := c.currentSize - reclaimed + size }

/-- AdaptiveMemoryCache.set from the excerpt: compute the size, update
the access pattern, adjust the adaptive size, evict when the new entry
would overflow the budget, then store unconditionally. calculateSize is
not part of the excerpt and is passed as a function. -/
def AdaptiveCache.set {Data : Type} (calcSize : Data → Nat)
    (c : AdaptiveCache Data) (id : String) (data : Data) (dirty : Bool)
    (now : Nat) : AdaptiveCache Data :=
  let size := calcSize data
  let c1 := updateAccessPattern c id
  let c2 := adjustCacheSize c1
  let c3 := if c2.adaptiveSize < c2.currentSize + size then evictSmart c2 size else c2
  storeEntry c3 id data size dirty now

/-- A concrete cache holding only dirty entries, over its 1000-byte
budget once one more 300-byte entry arrives. -/
def dirtyCache : AdaptiveCache String :=
  { cache := [("k1", ⟨"v1", 300, true, 1⟩),
              ("k2", ⟨"v2", 300, true, 2⟩),
              ("k3", ⟨"v3", 300, true, 3⟩)],
    currentSize := 900, hits := 0, misses := 0, accessPatterns := [],
    adaptiveSize := 1000, baseSize := 1000,
    growthFactor := 3/2, shrinkFactor := 4/5 }

/-! ### Manager deferred deletion
Embedded from the excerpt at manager.ts:534 in
analysis-memory-leaks-2025-08-08.md: expired entries are removed by
scheduling the deletion callback on the event loop and returning at
once. The flushedKeys and recoveryKeys components record every flush
and every recovery handoff the manager would perform; the excerpt's
path performs neither, so they stay unchanged. -/

structure MgrEntry where
  value : String
  dirty : Bool
  expiresAt : Nat
deriving DecidableEq

structure ManagerState where
  entries : List (String × MgrEntry)
  pendingDeletes : List String
  flushedKeys : List String
  recoveryKeys : List String
deriving DecidableEq

/-- The call at manager.ts:534: queue the deletion callback for a later
turn of the event loop and return immediately. No flush and no recovery
handoff happens on this path. -/
def scheduleDelete (st : ManagerState) (id : String) : ManagerState :=
  { st with pendingDeletes := st.pendingDeletes ++ [id] }

/-- deleteEntry: remove the entry from the map. The excerpt's
surrounding path neither flushes the entry nor hands it to any recovery
structure (the repository contains neither mechanism). -/
def deleteEntry (st : ManagerState) (id : String) : ManagerState :=
  { st with entries := eraseKey st.entries id }

/-- The event loop later runs the queued deletion callbacks. -/
def runPendingDeletes (st : ManagerState) : ManagerState :=
  { (st.pendingDeletes.foldl deleteEntry st) with pendingDeletes := [] }

/-- A manager holding a single dirty entry k whose deletion gets
scheduled. -/
def mgrDirty : ManagerState :=
  { entries := [("k", ⟨"v", true, 10⟩)], pendingDeletes := [],
    flushedKeys := [], recoveryKeys := [] }

/-! ### BatchOperationManager.retryBatch
Embedded from the excerpt in
analysis-database-operations-query-optimization-2025-08-08.md:
for attempt in 0 ..< maxRetries: wait 1000 * 2 ^ attempt ms, call
storeFunction; on success return, on failure at the last attempt move
the batch to the dead letter handler. storeOk says whether the store
call of a given attempt succeeds. -/

/-- The delay the code waits before the store call of a given attempt:
1000 * Math.pow(2, attempt), with no cap and no jitter. -/
def retryDelay (attempt : Nat) : Nat := 1000 * 2 ^ attempt

inductive RetryOutcome where
  | stored
  | deadLettered
  | noAttempt
deriving DecidableEq

structure RetryTrace where
  delays : List Nat
  attempts : Nat
  outcome : RetryOutcome
deriving DecidableEq

/-- The retry loop; fuel counts the remaining iterations, so the loop
guard attempt < maxRetries is fuel > 0 (retryBatch starts it with
fuel = maxRetries and attempt = 0). -/
def retryLoop (storeOk : Nat → Bool) (maxRetries : Nat) :
    Nat → Nat → RetryTrace
  | 0, _ => ⟨[], 0, RetryOutcome.noAttempt⟩
  | fuel + 1, attempt =>
    if storeOk attempt then ⟨[retryDelay attempt], 1, RetryOutcome.stored⟩
    else if attempt = maxRetries - 1 then
      ⟨[retryDelay attempt], 1, RetryOutcome.deadLettered⟩
    else
      let t := retryLoop storeOk maxRetries fuel (attempt + 1)
      ⟨retryDelay attempt :: t.delays, t.attempts + 1, t.outcome⟩

/-- retryBatch from the excerpt (default maxRetries is 3). -/
def retryBatch (storeOk : Nat → Bool) (maxRetries : Nat) : RetryTrace :=
  retryLoop storeOk maxRetries maxRetries 0

/-- The delay formula asserted by the spec sentence of claim C5, written
from the spec words for comparison with retryDelay: the exponential
value min(baseDelay * 2 ^ k, capDelay) plus the cited excerpt's jitter
term r * 0.3 * delay, where r is the random draw from the unit
interval. -/
def specRetryDelay (baseDelay capDelay : Rat) (k : Nat) (r : Rat) : Rat :=
  let d := min (baseDelay * 2 ^ k) capDelay
  d + r * (3/10) * d

/-! ### Write-behind pipeline
Modelled from the spec: the §4.1 put operation, the §4.3 deduplicated
job queue and worker drain, and the §6 backend gateway with the §3
version gate are not present in the repository sources (the analysis
reports only excerpt the prior cache code), so they are modelled here
from the spec words. -/

structure WBEntry where
  value : String
  tags : List String
  version : Nat
  dirty : Bool
  sizeBytes : Nat
deriving DecidableEq

structure PJob where
  key : String
  version : Nat
deriving DecidableEq

inductive PutError where
  | valueTooLarge
  | queueFull
deriving DecidableEq

structure WBConfig where
  maxEntrySizeBytes : Nat
  queueCapacity : Nat
  failFast : Bool
deriving DecidableEq

structure WBState where
  store : List (String × WBEntry)
  queue : List PJob
  currentSize : Nat
deriving DecidableEq

/-- Modelled from the spec: put upserts the entry, bumps the version,
marks it dirty, updates size accounting and enqueues the job, where a
newer put collapses any still-queued older job for the key (§4.1,
§4.3); it fails only on an oversize value or, when the backpressure
policy is fail-fast and the queue is full, with a queue-full error
(§5, §7); under the default bounded-wait policy the brief wait for a
queue slot is abstracted and the job is enqueued. -/
def wbPut (cfg : WBConfig) (st : WBState) (key : String) (value : String)
    (tags : List String) : Except PutError (WBState × Nat) :=
  let size := value.length
  if cfg.maxEntrySizeBytes < size then Except.error PutError.valueTooLarge
  else if cfg.queueCapacity ≤ st.queue.length ∧ cfg.failFast then
    Except.error PutError.queueFull
  else
    let oldVer := match lookupKey st.store key with
      | some e => e.version
      | none => 0
    let oldSize := match lookupKey st.store key with
      | some e => e.sizeBytes
      | none => 0
    let ver := oldVer + 1
    Except.ok
      ({ store := setKey st.store key ⟨value, tags, ver, true, size⟩,
         queue := (st.queue.filter (fun j => j.key ≠ key)) ++ [⟨key, ver⟩],
         currentSize := st.currentSize - oldSize + size }, ver)

structure Backend where
  durable : List (String × Nat)
  calls : List PJob
deriving DecidableEq

/-- Modelled from the spec: the backend gateway records every store
call, and never durably applies a lower version over a higher one; a
store for a superseded version is discarded (§3 invariants, §6). -/
def backendStore (b : Backend) (key : String) (ver : Nat) : Backend :=
  let logged : Backend := { b with calls := b.calls ++ [⟨key, ver⟩] }
  match lookupKey b.durable key with
  | some cur =>
    if cur < ver then { logged with durable := setKey b.durable key ver }
    else logged
  | none => { logged with durable := setKey b.durable key ver }

/-- Apply a sequence of store jobs to the backend in order. -/
def backendStoreJobs (b : Backend) (jobs : List PJob) : Backend :=
  jobs.foldl (fun acc j => backendStore acc j.key j.version) b

/-- Modelled from the spec (§4.3): a worker re-reads the current entry
and drops the job unless the entry still carries exactly the job's
version; otherwise it stores through the gateway and, the version still
matching, clears dirty. The backend is taken as available, so the store
call succeeds. -/
def drainJob (st : WBState) (b : Backend) (j : PJob) : WBState × Backend :=
  match lookupKey st.store j.key with
  | some e =>
    if e.version = j.version then
      ({ st with store := setKey st.store j.key { e with dirty := false } },
       backendStore b j.key j.version)
    else (st, b)
  | none => (st, b)

/-- Drain the whole queue in order. -/
def drainAll (st : WBState) (b : Backend) : WBState × Backend :=
  let p := st.queue.foldl (fun acc j => drainJob acc.1 acc.2 j) (st, b)
  ({ p.1 with queue := [] }, p.2)

/-- The empty write-behind state. -/
def wbInit : WBState := { store := [], queue := [], currentSize := 0 }

/-- The empty backend. -/
def backendInit : Backend := { durable := [], calls := [] }

/-! ### Recovery Queue
Modelled from the spec (§4.5): the repository's only dead-letter code,
moveToDeadLetter, is an unimplemented stub that logs a warning, so the
capacity-bounded Recovery Queue is modelled from the spec words. -/

structure RecoveryItem where
  key : String
  snapshotValue : String
  snapshotVersion : Nat
  attempts : Nat
  nextRetryAt : Nat
  lastError : String
deriving DecidableEq

inductive RQEvent where
  | permanentLoss (item : RecoveryItem)
  | repersisted (item : RecoveryItem)
deriving DecidableEq

structure RecoveryQueue where
  capacity : Nat
  items : List RecoveryItem
deriving DecidableEq

/-- Modelled from the spec: inserting into a full queue evicts the
oldest item with an explicit permanent-loss event (items are kept
oldest first); with capacity zero the incoming item itself is
immediately reported lost. -/
def rqInsert (q : RecoveryQueue) (it : RecoveryItem) :
    RecoveryQueue × List RQEvent :=
  if q.items.length < q.capacity then
    ({ q with items := q.items ++ [it] }, [])
  else
    match q.items with
    | [] => (q, [RQEvent.permanentLoss it])
    | old :: rest =>
      ({ q with items := rest ++ [it] }, [RQEvent.permanentLoss old])

/-- Modelled from the spec: one retry pass over the items; an item
whose nextRetryAt has elapsed is re-attempted through the breaker, and
on success it is removed and reported as repersisted, on failure it is
kept with the attempt count bumped, the error recorded and the next
retry time pushed past now; items not yet due are kept unchanged. -/
def sweepItems (now : Nat) (storeOk : RecoveryItem → Bool) (err : String) :
    List RecoveryItem → List RecoveryItem × List RQEvent
  | [] => ([], [])
  | it :: rest =>
    let r := sweepItems now storeOk err rest
    if it.nextRetryAt ≤ now then
      if storeOk it then (r.1, RQEvent.repersisted it :: r.2)
      else ({ it with attempts := it.attempts + 1,
                      lastError := err,
                      nextRetryAt := now + 1 } :: r.1, r.2)
    else (it :: r.1, r.2)

/-- Modelled from the spec: the background loop re-attempts items whose
nextRetryAt has elapsed through the breaker (§4.5). -/
def rqSweep (q : RecoveryQueue) (now : Nat) (storeOk : RecoveryItem → Bool)
    (err : String) : RecoveryQueue × List RQEvent :=
  let r := sweepItems now storeOk err q.items
  ({ q with items := r.1 }, r.2)

/-! ### Circuit Breaker
Modelled from the spec (§4.4, Scenario C): the repository only excerpts
a breaker configuration object, so the state machine is modelled from
the spec words. The failure rate is measured against the window size,
matching Scenario C exactly: with threshold 50 over a 10-call window,
6 recorded failures give 60 percent and trip the breaker, 5 do not. -/

inductive BState where
  | closed
  | opened (openedAt : Nat)
  | halfOpen
deriving DecidableEq

structure Breaker where
  state : BState
  window : List Bool
  windowSize : Nat
  thresholdPct : Nat
  cooldown : Nat
deriving DecidableEq

/-- Record a call outcome (true = failure) in the sliding window,
newest first, keeping at most windowSize outcomes. -/
def pushOutcome (w : List Bool) (size : Nat) (failed : Bool) : List Bool :=
  (failed :: w).take size

/-- Number of failures recorded in the window. -/
def failCount (w : List Bool) : Nat := w.countP (fun b => b)

/-- The Half-Open single trial call: on success the breaker closes (the
window resets), on failure it reopens from the current instant. -/
def breakerTrial (b : Breaker) (now : Nat) (backendFails : Bool) :
    Breaker × Bool × Bool :=
  if backendFails then
    ({ b with state := BState.opened now }, false, true)
  else
    ({ b with state := BState.closed, window := [] }, true, true)

/-- Modelled from the spec: one gated call at the given instant. The
result is the breaker afterwards, whether the call succeeded, and
whether it reached the backend. Closed calls reach the backend and trip
the breaker once the windowed failure rate exceeds the threshold; Open
calls fail fast without reaching the backend until the cooldown has
elapsed, at which point the breaker moves to Half-Open and the call is
admitted as the single trial. -/
def breakerCall (b : Breaker) (now : Nat) (backendFails : Bool) :
    Breaker × Bool × Bool :=
  match b.state with
  | BState.closed =>
    let w := pushOutcome b.window b.windowSize backendFails
    let tripped := b.thresholdPct * b.windowSize < failCount w * 100
    ({ b with state := if tripped then BState.opened now else BState.closed,
              window := w },
     !backendFails, true)
  | BState.opened t =>
    if now < t + b.cooldown then (b, false, false)
    else breakerTrial { b with state := BState.halfOpen } now backendFails
  | BState.halfOpen => breakerTrial b now backendFails

/-- A fresh Closed breaker. -/
def breakerFresh (wsize threshold cool : Nat) : Breaker :=
  { state := BState.closed, window := [], windowSize := wsize,
    thresholdPct := threshold, cooldown := cool }

/-- Run a sequence of failing backend calls at the given instants. -/
def breakerRunFails (b : Breaker) (times : List Nat) : Breaker :=
  times.foldl (fun acc t => (breakerCall acc t true).1) b

/-! ### Read Coordinator in-flight-fetch registry
Modelled from the spec (§4.6, §5): the Read Coordinator is not present
in the repository sources, so the per-key in-flight-fetch registry is
modelled from the spec words, for one key's miss window. -/

inductive FetchOutcome where
  | found (value : String) (version : Nat)
  | notFound
  | failed (msg : String)
deriving DecidableEq

structure FetchRegistry where
  waiters : Option (List Nat)
  fetchCount : Nat
deriving DecidableEq

/-- Modelled from the spec: a cache-miss get checks the registry; the
first miss registers the fetch and issues the single backend read,
every later miss during the window joins as a waiter of the existing
fetch. -/
def regMiss (r : FetchRegistry) (waiter : Nat) : FetchRegistry :=
  match r.waiters with
  | none => { waiters := some [waiter], fetchCount := r.fetchCount + 1 }
  | some ws => { r with waiters := some (ws ++ [waiter]) }

/-- Modelled from the spec: resolution clears the registry and releases
every waiter with the same outcome. -/
def regResolve (r : FetchRegistry) (outcome : FetchOutcome) :
    FetchRegistry × List (Nat × FetchOutcome) :=
  match r.waiters with
  | none => (r, [])
  | some ws => ({ r with waiters := none }, ws.map (fun w => (w, outcome)))

/-- The registry before any miss. -/
def regInit : FetchRegistry := { waiters := none, fetchCount := 0 }

/-- n concurrent cache-miss gets for the key arriving during one miss
window, as waiters 0 ..< n. -/
def regMissMany (n : Nat) : FetchRegistry :=
  (List.range n).foldl regMiss regInit

/-! ### Helper lemmas -/

theorem mem_insertBy {A : Type} (le : A → A → Bool) (x p : A) (l : List A) :
    p ∈ insertBy le x l ↔ p = x ∨ p ∈ l := by
  induction l with
  | nil => simp [insertBy]
  | cons y ys ih =>
    simp only [insertBy]
    split
    · simp [List.mem_cons]
    · simp [List.mem_cons, ih]
      tauto

theorem mem_sortBy {A : Type} (le : A → A → Bool) (p : A) (l : List A)
    (h : p ∈ sortBy le l) : p ∈ l := by
  induction l with
  | nil => simp [sortBy] at h
  | cons x xs ih =>
    rw [sortBy, mem_insertBy] at h
    rcases h with h | h
    · simp [h]
    · simp [List.mem_cons, ih h]

theorem evictLoop_all_dirty {Data : Type} (l : List (String × CacheEntry Data))
    (c : AdaptiveCache Data) (requiredSpace freedSpace : Nat)
    (h : ∀ p ∈ l, p.2.dirty = true) :
    evictLoop l c requiredSpace freedSpace = c := by
  induction l generalizing freedSpace with
  | nil => rfl
  | cons hd tl ih =>
    obtain ⟨id, e⟩ := hd
    have hd_dirty : e.dirty = true := h (id, e) (List.mem_cons_self _ _)
    simp only [evictLoop, hd_dirty, if_true]
    split
    · rfl
    · exact ih _ (fun p hp => h p (List.mem_cons_of_mem _ hp))

theorem evictSmart_all_dirty {Data : Type} (c : AdaptiveCache Data)
    (requiredSpace : Nat) (h : ∀ p ∈ c.cache, p.2.dirty = true) :
    evictSmart c requiredSpace = c := by
  rw [evictSmart]
  exact evictLoop_all_dirty _ _ _ _ (fun p hp => h p (mem_sortBy _ _ _ hp))

theorem lookupKey_setKey_self {A : Type} (l : List (String × A)) (key : String)
    (v : A) : lookupKey (setKey l key v) key = some v := by
  induction l with
  | nil => simp [setKey, lookupKey]
  | cons hd tl ih =>
    obtain ⟨k, w⟩ := hd
    by_cases hk : k = key
    · simp [setKey, hk, lookupKey]
    · simp [setKey, hk, lookupKey, ih]

theorem lookupKey_setKey_ne {A : Type} (l : List (String × A)) (key key2 : String)
    (v : A) (h : key ≠ key2) :
    lookupKey (setKey l key v) key2 = lookupKey l key2 := by
  induction l with
  | nil => simp [setKey, lookupKey, h]
  | cons hd tl ih =>
    obtain ⟨k, w⟩ := hd
    by_cases hk : k = key
    · subst hk
      simp [setKey, lookupKey, h, ih]
    · simp [setKey, hk, lookupKey, ih]

theorem updateAccessPattern_parts {Data : Type} (c : AdaptiveCache Data)
    (id : String) :
    (updateAccessPattern c id).cache = c.cache
    ∧ (updateAccessPattern c id).currentSize = c.currentSize
    ∧ (updateAccessPattern c id).adaptiveSize = c.adaptiveSize
    ∧ (updateAccessPattern c id).hits = c.hits
    ∧ (updateAccessPattern c id).misses = c.misses := by
  exact ⟨rfl, rfl, rfl, rfl, rfl⟩

theorem adjustCacheSize_parts {Data : Type} (c : AdaptiveCache Data) :
    (adjustCacheSize c).cache = c.cache
    ∧ (adjustCacheSize c).currentSize = c.currentSize := by
  unfold adjustCacheSize
  dsimp only
  split
  · exact ⟨rfl, rfl⟩
  · split
    · exact ⟨rfl, rfl⟩
    · exact ⟨rfl, rfl⟩

theorem adjustCacheSize_small {Data : Type} (c : AdaptiveCache Data)
    (h : c.hits + c.misses ≤ 1000) : adjustCacheSize c = c := by
  unfold adjustCacheSize
  have h2 : ¬ (1000 : Nat) < c.hits + c.misses := by omega
  dsimp only
  split
  · rename_i hcond
    exact absurd hcond.2.1 h2
  · split
    · rename_i hcond
      exact absurd hcond.2.1 h2
    · rfl

theorem evictLoop_adaptiveSize {Data : Type} (l : List (String × CacheEntry Data))
    (c : AdaptiveCache Data) (requiredSpace freedSpace : Nat) :
    (evictLoop l c requiredSpace freedSpace).adaptiveSize = c.adaptiveSize := by
  induction l generalizing c freedSpace with
  | nil => rfl
  | cons hd tl ih =>
    obtain ⟨id, e⟩ := hd
    rw [evictLoop]
    split
    · rfl
    · split
      · exact ih _ _
      · exact ih _ _

theorem evictSmart_adaptiveSize {Data : Type} (c : AdaptiveCache Data)
    (requiredSpace : Nat) :
    (evictSmart c requiredSpace).adaptiveSize = c.adaptiveSize := by
  rw [evictSmart]
  exact evictLoop_adaptiveSize _ _ _ _

/-! ### Claims about the cache (C1, C10) -/

/-- C1: the claim says every eviction pass may select dirty entries as
victims (oldest first), flushing through the breaker or queueing to the
Recovery Queue before dropping them, so that no dirty entry is
permanently un-evictable. The code does the opposite: evictSmart skips
every dirty entry, so on a cache holding only dirty entries an eviction
pass that must reclaim 300 bytes frees nothing, changes nothing, and
performs no flush and no recovery handoff (the embedding is the whole
excerpt; no such side channel exists in it). This theorem evaluates the
code at that failing input. -/
theorem c1_dirty_never_evicted_at_input :
    evictSmart dirtyCache 300 = dirtyCache
    ∧ dirtyCache.cache.all (fun p => p.2.dirty) = true
    ∧ dirtyCache.adaptiveSize < dirtyCache.currentSize + 300 :=
  ⟨rfl, rfl, by decide⟩

/-- C2: the claim says delete on a dirty entry does not return until a
synchronous flush completed or a Recovery Queue handoff is confirmed.
The code at manager.ts:534 instead schedules deleteEntry through
setTimeout and returns at once: at return time the dirty entry is still
resident and nothing has been flushed or handed off, and when the
scheduled callback later runs, the dirty entry is removed with no flush
and no recovery handoff. This theorem evaluates the code at that
failing input. -/
theorem c2_scheduled_delete_drops_dirty_entry :
    lookupKey (scheduleDelete mgrDirty "k").entries "k" = some ⟨"v", true, 10⟩
    ∧ (scheduleDelete mgrDirty "k").pendingDeletes = ["k"]
    ∧ (scheduleDelete mgrDirty "k").flushedKeys = []
    ∧ (scheduleDelete mgrDirty "k").recoveryKeys = []
    ∧ lookupKey (runPendingDeletes (scheduleDelete mgrDirty "k")).entries "k" = none
    ∧ (runPendingDeletes (scheduleDelete mgrDirty "k")).flushedKeys = []
    ∧ (runPendingDeletes (scheduleDelete mgrDirty "k")).recoveryKeys = [] :=
  ⟨rfl, rfl, rfl, rfl, by decide, rfl, rfl⟩

/-- C10: set always completes and stores the entry, with no error and
no backpressure: the stored entry is present afterwards for every
input; when every resident entry is dirty (so the eviction pass
reclaims nothing) and the id is fresh, currentSize grows by the full
entry size, exceeding any budget without bound; the budget itself is
unchanged whenever the adaptive resize has fewer than the 1000 requests
it needs. -/
theorem c10_set_always_stores {Data : Type} (calcSize : Data → Nat)
    (c : AdaptiveCache Data) (id : String) (data : Data) (dirty : Bool)
    (now : Nat) :
    lookupKey ((AdaptiveCache.set calcSize c id data dirty now).cache) id =
      some ⟨data, calcSize data, dirty, now⟩
    ∧ ((∀ p ∈ c.cache, p.2.dirty = true) → lookupKey c.cache id = none →
        (AdaptiveCache.set calcSize c id data dirty now).currentSize =
          c.currentSize + calcSize data)
    ∧ (c.hits + c.misses ≤ 1000 →
        (AdaptiveCache.set calcSize c id data dirty now).adaptiveSize =
          c.adaptiveSize) := by
  refine ⟨?_, ?_, ?_⟩
  · unfold AdaptiveCache.set storeEntry
    dsimp only
    exact lookupKey_setKey_self _ _ _
  · intro hdirty hfresh
    unfold AdaptiveCache.set
    dsimp only
    have hcache2 : (adjustCacheSize (updateAccessPattern c id)).cache = c.cache :=
      (adjustCacheSize_parts _).1
    have hsize2 :
        (adjustCacheSize (updateAccessPattern c id)).currentSize = c.currentSize :=
      (adjustCacheSize_parts _).2
    split
    · have hev : evictSmart (adjustCacheSize (updateAccessPattern c id))
          (calcSize data) = adjustCacheSize (updateAccessPattern c id) :=
        evictSmart_all_dirty _ _ (by rw [hcache2]; exact hdirty)
      rw [hev]
      unfold storeEntry
      dsimp only
      rw [hcache2, hfresh, hsize2]
      rfl
    · unfold storeEntry
      dsimp only
      rw [hcache2, hfresh, hsize2]
      rfl
  · intro hsmall
    unfold AdaptiveCache.set
    dsimp only
    have h2 : adjustCacheSize (updateAccessPattern c id) = updateAccessPattern c id :=
      adjustCacheSize_small _ hsmall
    rw [h2]
    split
    · unfold storeEntry
      dsimp only
      exact evictSmart_adaptiveSize _ _
    · unfold storeEntry
      dsimp only
      rfl

/-- Witness for C10: on the all-dirty over-budget cache a further
300-byte set succeeds, stores the entry, and pushes currentSize to
1200, past the 1000-byte budget. -/
theorem c10_set_always_stores_witness :
    lookupKey ((AdaptiveCache.set (fun _ => 300) dirtyCache "k4" "v4" true 4).cache)
      "k4" = some ⟨"v4", 300, true, 4⟩
    ∧ (AdaptiveCache.set (fun _ => 300) dirtyCache "k4" "v4" true 4).currentSize =
        dirtyCache.currentSize + 300
    ∧ (AdaptiveCache.set (fun _ => 300) dirtyCache "k4" "v4" true 4).adaptiveSize =
        dirtyCache.adaptiveSize
    ∧ dirtyCache.adaptiveSize < dirtyCache.currentSize + 300 :=
  ⟨(c10_set_always_stores (fun _ => 300) dirtyCache "k4" "v4" true 4).1,
   (c10_set_always_stores (fun _ => 300) dirtyCache "k4" "v4" true 4).2.1
     (by decide) (by decide),
   (c10_set_always_stores (fun _ => 300) dirtyCache "k4" "v4" true 4).2.2
     (by decide),
   by decide⟩

/-! ### Claims about the retry path (C5) -/

theorem retryLoop_spec (storeOk : Nat → Bool) (maxRetries : Nat) :
    ∀ fuel attempt, attempt + fuel = maxRetries → 1 ≤ fuel →
      (retryLoop storeOk maxRetries fuel attempt).attempts ≤ fuel
      ∧ (retryLoop storeOk maxRetries fuel attempt).delays =
          (List.range' attempt
            (retryLoop storeOk maxRetries fuel attempt).attempts).map retryDelay
      ∧ ((retryLoop storeOk maxRetries fuel attempt).outcome = RetryOutcome.stored
         ∨ (retryLoop storeOk maxRetries fuel attempt).outcome =
             RetryOutcome.deadLettered)
      ∧ ((retryLoop storeOk maxRetries fuel attempt).outcome =
            RetryOutcome.deadLettered ↔
          ∀ k, attempt ≤ k → k < maxRetries → storeOk k = false) := by
  intro fuel
  induction fuel with
  | zero => intro attempt hinv hfuel; exact absurd hfuel (by omega)
  | succ f ih =>
    intro attempt hinv hfuel
    have hlt : attempt < maxRetries := by omega
    cases hstore : storeOk attempt with
    | true =>
      simp only [retryLoop, hstore, if_true]
      refine ⟨by simp, by simp [List.range'_one], by simp, ?_⟩
      constructor
      · intro hcon
        simp at hcon
      · intro hall
        have hfalse := hall attempt (Nat.le_refl _) hlt
        rw [hstore] at hfalse
        exact Bool.noConfusion hfalse
    | false =>
      by_cases hlast : attempt = maxRetries - 1
      · have hf0 : f = 0 := by omega
        subst hf0
        simp only [retryLoop, hstore, Bool.false_eq_true, if_false]
        rw [if_pos hlast]
        refine ⟨by simp, by simp [List.range'_one], by simp, ?_⟩
        constructor
        · intro _ k hk1 hk2
          have hk : k = attempt := by omega
          rw [hk, hstore]
        · intro _
          simp
      · have hf1 : 1 ≤ f := by omega
        have hinv2 : (attempt + 1) + f = maxRetries := by omega
        obtain ⟨ih1, ih2, ih3, ih4⟩ := ih (attempt + 1) hinv2 hf1
        simp only [retryLoop, hstore, Bool.false_eq_true, if_false]
        rw [if_neg hlast]
        refine ⟨by simp; omega, ?_, by simpa using ih3, ?_⟩
        · show retryDelay attempt :: (retryLoop storeOk maxRetries f (attempt + 1)).delays =
            (List.range' attempt
              ((retryLoop storeOk maxRetries f (attempt + 1)).attempts + 1)).map retryDelay
          rw [List.range'_succ, List.map_cons, ← ih2]
        · show (retryLoop storeOk maxRetries f (attempt + 1)).outcome =
              RetryOutcome.deadLettered ↔ _
          rw [ih4]
          constructor
          · intro hall k hk1 hk2
            rcases Nat.eq_or_lt_of_le hk1 with hk | hk
            · rw [← hk, hstore]
            · exact hall k hk hk2
          · intro hall k hk1 hk2
            exact hall k (by omega) hk2

/-- C5 as amended: for a failing batch the delay before the k-th store
attempt is exactly retryDelay k = 1000 * 2 ^ k milliseconds — plain
doubling with no cap and no jitter; the number of store attempts never
exceeds maxRetries; the run ends either stored or dead-lettered, and it
is dead-lettered exactly when every attempt fails, so an exhausted
batch is always handed to the dead-letter handler rather than retried
forever. -/
theorem c5_retry_bounded_deadletter (storeOk : Nat → Bool) (maxRetries : Nat)
    (h : 1 ≤ maxRetries) :
    (retryBatch storeOk maxRetries).attempts ≤ maxRetries
    ∧ (retryBatch storeOk maxRetries).delays =
        (List.range (retryBatch storeOk maxRetries).attempts).map retryDelay
    ∧ ((retryBatch storeOk maxRetries).outcome = RetryOutcome.stored
       ∨ (retryBatch storeOk maxRetries).outcome = RetryOutcome.deadLettered)
    ∧ ((retryBatch storeOk maxRetries).outcome = RetryOutcome.deadLettered ↔
        ∀ k, k < maxRetries → storeOk k = false) := by
  obtain ⟨h1, h2, h3, h4⟩ :=
    retryLoop_spec storeOk maxRetries maxRetries 0 (by omega) h
  refine ⟨h1, ?_, h3, ?_⟩
  · rw [retryBatch, List.range_eq_range']
    exact h2
  · rw [retryBatch, h4]
    constructor
    · intro hall k hk
      exact hall k (Nat.zero_le k) hk
    · intro hall k _ hk
      exact hall k hk

/-- Witness for C5's amended theorem: an always-failing store with the
default three attempts makes exactly 3 attempts with delays 1000, 2000,
4000 and ends dead-lettered. -/
theorem c5_retry_bounded_deadletter_witness :
    (retryBatch (fun _ => false) 3).attempts ≤ 3
    ∧ (retryBatch (fun _ => false) 3).delays =
        (List.range (retryBatch (fun _ => false) 3).attempts).map retryDelay
    ∧ ((retryBatch (fun _ => false) 3).outcome = RetryOutcome.stored
       ∨ (retryBatch (fun _ => false) 3).outcome = RetryOutcome.deadLettered)
    ∧ ((retryBatch (fun _ => false) 3).outcome = RetryOutcome.deadLettered ↔
        ∀ k, k < 3 → (fun _ => false : Nat → Bool) k = false) :=
  c5_retry_bounded_deadletter (fun _ => false) 3 (by decide)

/-- Counterexample for C5 as stated: the claim's delay formula
min(baseDelay * 2 ^ k, capDelay) plus a random jitter term disagrees
with the code's delay. With base 1000 and cap 30000, at attempt 0 and
random draw one half, the claimed delay is 1150 while the code waits
1000; with a configured cap of 1000, at attempt 2 the claimed delay is
at most 1300 (1000 even with zero jitter) while the code waits 4000 —
the code has no jitter and honours no cap. -/
theorem c5_delay_formula_counterexample :
    (retryDelay 0 : Rat) = 1000
    ∧ specRetryDelay 1000 30000 0 (1/2) = 1150
    ∧ specRetryDelay 1000 30000 0 (1/2) ≠ (retryDelay 0 : Rat)
    ∧ (retryDelay 2 : Rat) = 4000
    ∧ specRetryDelay 1000 1000 2 0 = 1000
    ∧ specRetryDelay 1000 1000 2 0 ≠ (retryDelay 2 : Rat) := by
  refine ⟨by norm_num [retryDelay], by norm_num [specRetryDelay], ?_, ?_, ?_, ?_⟩
  · norm_num [specRetryDelay, retryDelay]
  · norm_num [retryDelay]
  · norm_num [specRetryDelay]
  · norm_num [specRetryDelay, retryDelay]

/-! ### Claims about the write-behind pipeline (C3, C4, C8) -/

theorem lookupKey_cons_self {A : Type} (k : String) (v : A)
    (rest : List (String × A)) : lookupKey ((k, v) :: rest) k = some v := by
  simp [lookupKey]

theorem wbPut_ok_parts (cfg : WBConfig) (st : WBState) (key value : String)
    (tags : List String) (st2 : WBState) (ver : Nat)
    (h : wbPut cfg st key value tags = Except.ok (st2, ver)) :
    ver = (match lookupKey st.store key with
           | some e => e.version
           | none => 0) + 1
    ∧ st2.store = setKey st.store key ⟨value, tags, ver, true, value.length⟩
    ∧ st2.queue = (st.queue.filter (fun j => j.key ≠ key)) ++ [⟨key, ver⟩] := by
  unfold wbPut at h
  dsimp only at h
  by_cases h1 : cfg.maxEntrySizeBytes < value.length
  · rw [if_pos h1] at h
    exact absurd h (by simp)
  · rw [if_neg h1] at h
    by_cases h2 : cfg.queueCapacity ≤ st.queue.length ∧ cfg.failFast = true
    · rw [if_pos h2] at h
      exact absurd h (by simp)
    · rw [if_neg h2] at h
      simp only [Except.ok.injEq, Prod.mk.injEq] at h
      obtain ⟨hst, hver⟩ := h
      subst hver
      subst hst
      exact ⟨rfl, rfl, rfl⟩

/-- C3: put returns an error exactly when the value is oversize or the
fail-fast backpressure policy meets a full queue; an oversize error
means the value was oversize, a queue-full error means the queue really
was full under fail-fast; and a put that returns without error has
stored the entry (dirty, at the returned version) and enqueued its
persistence job — the error type has no backend or persistence
constructor at all, so no downstream failure is ever returned. -/
theorem c3_put_error_conditions (cfg : WBConfig) (st : WBState)
    (key value : String) (tags : List String) :
    ((∃ e, wbPut cfg st key value tags = Except.error e) ↔
      (cfg.maxEntrySizeBytes < value.length
       ∨ (cfg.queueCapacity ≤ st.queue.length ∧ cfg.failFast = true)))
    ∧ (wbPut cfg st key value tags = Except.error PutError.valueTooLarge →
        cfg.maxEntrySizeBytes < value.length)
    ∧ (wbPut cfg st key value tags = Except.error PutError.queueFull →
        cfg.queueCapacity ≤ st.queue.length ∧ cfg.failFast = true)
    ∧ (∀ st2 ver, wbPut cfg st key value tags = Except.ok (st2, ver) →
        lookupKey st2.store key = some ⟨value, tags, ver, true, value.length⟩
        ∧ (⟨key, ver⟩ : PJob) ∈ st2.queue) := by
  by_cases h1 : cfg.maxEntrySizeBytes < value.length
  · have he : wbPut cfg st key value tags = Except.error PutError.valueTooLarge := by
      unfold wbPut
      dsimp only
      rw [if_pos h1]
    refine ⟨⟨fun _ => Or.inl h1, fun _ => ⟨PutError.valueTooLarge, he⟩⟩,
            fun _ => h1, fun hc => ?_, fun st2 ver hc => ?_⟩
    · rw [he] at hc
      exact absurd hc (by simp)
    · rw [he] at hc
      exact absurd hc (by simp)
  · by_cases h2 : cfg.queueCapacity ≤ st.queue.length ∧ cfg.failFast = true
    · have he : wbPut cfg st key value tags = Except.error PutError.queueFull := by
        unfold wbPut
        dsimp only
        rw [if_neg h1, if_pos h2]
      refine ⟨⟨fun _ => Or.inr h2, fun _ => ⟨PutError.queueFull, he⟩⟩,
              fun hc => ?_, fun _ => h2, fun st2 ver hc => ?_⟩
      · rw [he] at hc
        exact absurd hc (by simp)
      · rw [he] at hc
        exact absurd hc (by simp)
    · have hok : wbPut cfg st key value tags =
          Except.ok
            ({ store := setKey st.store key
                 ⟨value, tags,
                  ((match lookupKey st.store key with
                    | some e => e.version
                    | none => 0) + 1), true, value.length⟩,
               queue := (st.queue.filter (fun j => j.key ≠ key)) ++
                 [⟨key, (match lookupKey st.store key with
                         | some e => e.version
                         | none => 0) + 1⟩],
               currentSize := st.currentSize -
                 (match lookupKey st.store key with
                  | some e => e.sizeBytes
                  | none => 0) + value.length },
             (match lookupKey st.store key with
              | some e => e.version
              | none => 0) + 1) := by
        unfold wbPut
        dsimp only
        rw [if_neg h1, if_neg h2]
      refine ⟨⟨fun hc => ?_, fun hc => ?_⟩, fun hc => ?_, fun hc => ?_,
              fun st2 ver hc => ?_⟩
      · obtain ⟨e, hce⟩ := hc
        rw [hok] at hce
        exact absurd hce (by simp)
      · exact absurd hc (by simp [h1, h2])
      · rw [hok] at hc
        exact absurd hc (by simp)
      · rw [hok] at hc
        exact absurd hc (by simp)
      · obtain ⟨hver, hstore, hqueue⟩ := wbPut_ok_parts cfg st key value tags st2 ver hc
        constructor
        · rw [hstore, hver]
          exact lookupKey_setKey_self _ _ _
        · rw [hqueue, hver]
          simp

/-- Witness for C3: with entry limit 10, queue capacity 0 and fail-fast
backpressure, a put fails (queue full); with capacity 5 it succeeds,
stores the dirty entry at version 1 and enqueues its job. -/
theorem c3_put_error_conditions_witness :
    (∃ e, wbPut ⟨10, 0, true⟩ wbInit "k" "ab" [] = Except.error e)
    ∧ (lookupKey ((⟨[("k", ⟨"ab", [], 1, true, 2⟩)], [⟨"k", 1⟩], 2⟩ : WBState)).store
         "k" = some ⟨"ab", [], 1, true, 2⟩
       ∧ (⟨"k", 1⟩ : PJob) ∈
           ((⟨[("k", ⟨"ab", [], 1, true, 2⟩)], [⟨"k", 1⟩], 2⟩ : WBState)).queue) :=
  ⟨(c3_put_error_conditions ⟨10, 0, true⟩ wbInit "k" "ab" []).1.mpr
     (Or.inr ⟨by decide, rfl⟩),
   (c3_put_error_conditions ⟨10, 5, false⟩ wbInit "k" "ab" []).2.2.2
     ⟨[("k", ⟨"ab", [], 1, true, 2⟩)], [⟨"k", 1⟩], 2⟩ 1 (by rfl)⟩

theorem backendStore_durable_mono (b : Backend) (key : String) (ver : Nat)
    (k : String) (cur : Nat) (h : lookupKey b.durable k = some cur) :
    ∃ cur2, lookupKey (backendStore b key ver).durable k = some cur2
      ∧ cur ≤ cur2 := by
  unfold backendStore
  by_cases hk : key = k
  · subst hk
    rw [h]
    dsimp only
    split
    · refine ⟨ver, ?_, by omega⟩
      exact lookupKey_setKey_self _ _ _
    · exact ⟨cur, h, Nat.le_refl _⟩
  · cases hmatch : lookupKey b.durable key with
    | some cur2 =>
      dsimp only
      split
      · refine ⟨cur, ?_, Nat.le_refl _⟩
        rw [lookupKey_setKey_ne _ _ _ _ hk]
        exact h
      · exact ⟨cur, h, Nat.le_refl _⟩
    | none =>
      dsimp only
      refine ⟨cur, ?_, Nat.le_refl _⟩
      rw [lookupKey_setKey_ne _ _ _ _ hk]
      exact h

theorem backendStoreJobs_mono (jobs : List PJob) :
    ∀ (b : Backend) (k : String) (cur : Nat),
      lookupKey b.durable k = some cur →
      ∃ cur2, lookupKey (backendStoreJobs b jobs).durable k = some cur2
        ∧ cur ≤ cur2 := by
  induction jobs with
  | nil => exact fun b k cur h => ⟨cur, h, Nat.le_refl _⟩
  | cons j rest ih =>
    intro b k cur h
    obtain ⟨c1, hc1, hle1⟩ := backendStore_durable_mono b j.key j.version k cur h
    obtain ⟨c2, hc2, hle2⟩ := ih _ k c1 hc1
    exact ⟨c2, hc2, Nat.le_trans hle1 hle2⟩

/-- C4: the version returned by a second put for the same key is
strictly greater than the version returned by the previous put, and the
backend's version gate never lets a durable version regress: once a
higher version v2 is durable for a key, no sequence of late, reordered
or retried store jobs can leave the lower version v1 durable. -/
theorem c4_version_monotonicity :
    (∀ cfg st st1 st2 key v1 v2 tg1 tg2 n1 n2,
      wbPut cfg st key v1 tg1 = Except.ok (st1, n1) →
      wbPut cfg st1 key v2 tg2 = Except.ok (st2, n2) → n1 < n2)
    ∧ ∀ (b : Backend) (jobs : List PJob) (k : String) (v1 v2 : Nat),
      v1 < v2 → lookupKey b.durable k = some v2 →
      ¬ lookupKey (backendStoreJobs b jobs).durable k = some v1 := by
  constructor
  · intro cfg st st1 st2 key v1 v2 tg1 tg2 n1 n2 h1 h2
    obtain ⟨_, hs1, _⟩ := wbPut_ok_parts cfg st key v1 tg1 st1 n1 h1
    obtain ⟨hv2, _, _⟩ := wbPut_ok_parts cfg st1 key v2 tg2 st2 n2 h2
    rw [hs1, lookupKey_setKey_self] at hv2
    dsimp only at hv2
    omega
  · intro b jobs k v1 v2 hlt hdur hcon
    obtain ⟨cur2, hc, hle⟩ := backendStoreJobs_mono jobs b k v2 hdur
    rw [hcon] at hc
    injection hc with hc2
    omega

/-- Witness for C4: two successive puts of key k return versions 1 then
2 with 1 < 2, and a backend already durable at version 2 discards a
late store of version 1. -/
theorem c4_version_monotonicity_witness :
    (1 : Nat) < 2
    ∧ ¬ lookupKey (backendStoreJobs ⟨[("k", 2)], []⟩ [⟨"k", 1⟩]).durable "k" =
        some 1 :=
  ⟨c4_version_monotonicity.1 ⟨10, 5, false⟩ wbInit
     ⟨[("k", ⟨"a", [], 1, true, 1⟩)], [⟨"k", 1⟩], 1⟩
     ⟨[("k", ⟨"b", [], 2, true, 1⟩)], [⟨"k", 2⟩], 1⟩
     "k" "a" "b" [] [] 1 2 (by rfl) (by rfl),
   c4_version_monotonicity.2 ⟨[("k", 2)], []⟩ [⟨"k", 1⟩] "k" 1 2
     (by omega) (by rfl)⟩

/-- C8: executing the same put twice in succession leaves, after the
queue is drained, exactly one store call at the backend and exactly one
durable version for the key — the second put collapses the first job in
the queue (and the worker's version re-check would drop it anyway), so
an identical replayed put never yields two durable versions. -/
theorem c8_replay_put_single_version (cfg : WBConfig) (key value : String)
    (tags : List String) (hsize : value.length ≤ cfg.maxEntrySizeBytes)
    (hff : cfg.failFast = false) :
    ∃ st1 st2,
      wbPut cfg wbInit key value tags = Except.ok (st1, 1)
      ∧ wbPut cfg st1 key value tags = Except.ok (st2, 2)
      ∧ (drainAll st2 backendInit).2.calls = [⟨key, 2⟩]
      ∧ (drainAll st2 backendInit).2.durable = [(key, 2)] := by
  have hnlt : ¬ cfg.maxEntrySizeBytes < value.length := Nat.not_lt.mpr hsize
  refine ⟨⟨[(key, ⟨value, tags, 1, true, value.length⟩)], [⟨key, 1⟩], value.length⟩,
          ⟨[(key, ⟨value, tags, 2, true, value.length⟩)], [⟨key, 2⟩], value.length⟩,
          ?_, ?_, ?_, ?_⟩
  · unfold wbPut
    dsimp only
    rw [if_neg hnlt, if_neg (by simp [hff])]
    simp [wbInit, lookupKey, setKey]
  · unfold wbPut
    dsimp only
    rw [if_neg hnlt, if_neg (by simp [hff])]
    simp [lookupKey, setKey, List.filter]
  · simp [drainAll, drainJob, backendStore, backendInit, lookupKey, setKey]
  · simp [drainAll, drainJob, backendStore, backendInit, lookupKey, setKey]

/-- Witness for C8 at a concrete configuration and key. -/
theorem c8_replay_put_single_version_witness :
    ∃ st1 st2,
      wbPut ⟨10, 5, false⟩ wbInit "k" "v" [] = Except.ok (st1, 1)
      ∧ wbPut ⟨10, 5, false⟩ st1 "k" "v" [] = Except.ok (st2, 2)
      ∧ (drainAll st2 backendInit).2.calls = [⟨"k", 2⟩]
      ∧ (drainAll st2 backendInit).2.durable = [("k", 2)] :=
  c8_replay_put_single_version ⟨10, 5, false⟩ "k" "v" [] (by decide) rfl

/-! ### Claims about the Recovery Queue (C6) -/

theorem sweepItems_mem (now : Nat) (storeOk : RecoveryItem → Bool) (err : String)
    (l : List RecoveryItem) (x : RecoveryItem) (hx : x ∈ l)
    (hkeys : ∀ y ∈ (sweepItems now storeOk err l).1, y.key ≠ x.key) :
    RQEvent.repersisted x ∈ (sweepItems now storeOk err l).2 := by
  induction l with
  | nil => exact absurd hx (List.not_mem_nil x)
  | cons it rest ih =>
    rcases List.mem_cons.mp hx with rfl | hx2
    · by_cases hdue : x.nextRetryAt ≤ now
      · by_cases hok2 : storeOk x = true
        · have h2 : (sweepItems now storeOk err (x :: rest)).2 =
              RQEvent.repersisted x :: (sweepItems now storeOk err rest).2 := by
            simp [sweepItems, hdue, hok2]
          rw [h2]
          exact List.mem_cons_self _ _
        · have h1 : (sweepItems now storeOk err (x :: rest)).1 =
              { x with attempts := x.attempts + 1, lastError := err,
                       nextRetryAt := now + 1 } ::
              (sweepItems now storeOk err rest).1 := by
            simp [sweepItems, hdue, hok2]
          have hcon := hkeys _ (by rw [h1]; exact List.mem_cons_self _ _)
          exact absurd rfl hcon
      · have h1 : (sweepItems now storeOk err (x :: rest)).1 =
            x :: (sweepItems now storeOk err rest).1 := by
          simp [sweepItems, hdue]
        have hcon := hkeys x (by rw [h1]; exact List.mem_cons_self _ _)
        exact absurd rfl hcon
    · by_cases hdue : it.nextRetryAt ≤ now
      · by_cases hok2 : storeOk it = true
        · have h1 : (sweepItems now storeOk err (it :: rest)).1 =
              (sweepItems now storeOk err rest).1 := by
            simp [sweepItems, hdue, hok2]
          have h2 : (sweepItems now storeOk err (it :: rest)).2 =
              RQEvent.repersisted it :: (sweepItems now storeOk err rest).2 := by
            simp [sweepItems, hdue, hok2]
          rw [h2]
          exact List.mem_cons_of_mem _
            (ih hx2 (fun y hy => hkeys y (by rw [h1]; exact hy)))
        · have h1 : (sweepItems now storeOk err (it :: rest)).1 =
              { it with attempts := it.attempts + 1, lastError := err,
                        nextRetryAt := now + 1 } ::
              (sweepItems now storeOk err rest).1 := by
            simp [sweepItems, hdue, hok2]
          have h2 : (sweepItems now storeOk err (it :: rest)).2 =
              (sweepItems now storeOk err rest).2 := by
            simp [sweepItems, hdue, hok2]
          rw [h2]
          exact ih hx2
            (fun y hy => hkeys y (by rw [h1]; exact List.mem_cons_of_mem _ hy))
      · have h1 : (sweepItems now storeOk err (it :: rest)).1 =
            it :: (sweepItems now storeOk err rest).1 := by
          simp [sweepItems, hdue]
        have h2 : (sweepItems now storeOk err (it :: rest)).2 =
            (sweepItems now storeOk err rest).2 := by
          simp [sweepItems, hdue]
        rw [h2]
        exact ih hx2
          (fun y hy => hkeys y (by rw [h1]; exact List.mem_cons_of_mem _ hy))

/-- C6: the Recovery Queue never exceeds its capacity; inserting into a
full queue removes the oldest item and emits exactly one explicit
permanent-loss event carrying it; and an item only ever leaves the
queue reported — key-wise disappearance through an insertion implies a
permanent-loss event for it, and through a retry sweep implies a
repersisted event for it. -/
theorem c6_recovery_queue_bounded_loss_reported :
    (∀ (q : RecoveryQueue) (it : RecoveryItem),
      q.items.length ≤ q.capacity →
      ((rqInsert q it).1).items.length ≤ q.capacity)
    ∧ (∀ (q : RecoveryQueue) (it old : RecoveryItem) (rest : List RecoveryItem),
      q.items = old :: rest → q.items.length = q.capacity →
      rqInsert q it = ({ q with items := rest ++ [it] },
                       [RQEvent.permanentLoss old]))
    ∧ (∀ (q : RecoveryQueue) (it x : RecoveryItem),
      x ∈ q.items → (∀ y ∈ ((rqInsert q it).1).items, y.key ≠ x.key) →
      RQEvent.permanentLoss x ∈ (rqInsert q it).2)
    ∧ (∀ (q : RecoveryQueue) (now : Nat) (storeOk : RecoveryItem → Bool)
        (err : String) (x : RecoveryItem),
      x ∈ q.items →
      (∀ y ∈ ((rqSweep q now storeOk err).1).items, y.key ≠ x.key) →
      RQEvent.repersisted x ∈ (rqSweep q now storeOk err).2) := by
  refine ⟨?_, ?_, ?_, ?_⟩
  · intro q it h
    unfold rqInsert
    split
    · rename_i hlt
      simp only [List.length_append, List.length_cons, List.length_nil]
      omega
    · split
      · exact h
      · rename_i old rest hq
        have hlen : q.items.length = rest.length + 1 := by rw [hq]; rfl
        simp only [List.length_append, List.length_cons, List.length_nil]
        omega
  · intro q it old rest hq hfull
    unfold rqInsert
    have hnlt : ¬ q.items.length < q.capacity := by omega
    rw [if_neg hnlt, hq]
  · intro q it x hx hkeys
    by_cases hlt : q.items.length < q.capacity
    · have hitems : ((rqInsert q it).1).items = q.items ++ [it] := by
        unfold rqInsert
        rw [if_pos hlt]
      rw [hitems] at hkeys
      exact absurd rfl (hkeys x (List.mem_append_left _ hx))
    · cases hq : q.items with
      | nil =>
        rw [hq] at hx
        exact absurd hx (List.not_mem_nil x)
      | cons old rest =>
        have hins : rqInsert q it =
            ({ q with items := rest ++ [it] }, [RQEvent.permanentLoss old]) := by
          unfold rqInsert
          rw [if_neg hlt, hq]
        rw [hins] at hkeys ⊢
        rw [hq] at hx
        rcases List.mem_cons.mp hx with rfl | hx2
        · exact List.mem_cons_self _ _
        · exact absurd rfl (hkeys x (List.mem_append_left _ hx2))
  · intro q now storeOk err x hx hkeys
    exact sweepItems_mem now storeOk err q.items x hx (fun y hy => hkeys y hy)

/-- Witness for C6: a capacity-2 queue holding items keyed a and b
stays within capacity on a third insertion, which evicts the oldest
item (key a) with its permanent-loss event; and a due item swept with a
succeeding store leaves the queue reported as repersisted. -/
theorem c6_recovery_queue_witness :
    ((rqInsert ⟨2, [⟨"a", "va", 1, 0, 0, "x"⟩, ⟨"b", "vb", 1, 0, 0, "x"⟩]⟩
        ⟨"c", "vc", 1, 0, 0, "x"⟩).1).items.length ≤ 2
    ∧ rqInsert ⟨2, [⟨"a", "va", 1, 0, 0, "x"⟩, ⟨"b", "vb", 1, 0, 0, "x"⟩]⟩
        ⟨"c", "vc", 1, 0, 0, "x"⟩ =
      (⟨2, [⟨"b", "vb", 1, 0, 0, "x"⟩, ⟨"c", "vc", 1, 0, 0, "x"⟩]⟩,
       [RQEvent.permanentLoss ⟨"a", "va", 1, 0, 0, "x"⟩])
    ∧ RQEvent.permanentLoss ⟨"a", "va", 1, 0, 0, "x"⟩ ∈
        (rqInsert ⟨2, [⟨"a", "va", 1, 0, 0, "x"⟩, ⟨"b", "vb", 1, 0, 0, "x"⟩]⟩
          ⟨"c", "vc", 1, 0, 0, "x"⟩).2
    ∧ RQEvent.repersisted ⟨"a", "va", 1, 0, 0, "x"⟩ ∈
        (rqSweep ⟨2, [⟨"a", "va", 1, 0, 0, "x"⟩]⟩ 5 (fun _ => true) "x").2 :=
  ⟨c6_recovery_queue_bounded_loss_reported.1 _ _ (by decide),
   c6_recovery_queue_bounded_loss_reported.2.1 _ ⟨"c", "vc", 1, 0, 0, "x"⟩
     ⟨"a", "va", 1, 0, 0, "x"⟩ [⟨"b", "vb", 1, 0, 0, "x"⟩] rfl (by decide),
   c6_recovery_queue_bounded_loss_reported.2.2.1 _ _ ⟨"a", "va", 1, 0, 0, "x"⟩
     (by decide) (by decide),
   c6_recovery_queue_bounded_loss_reported.2.2.2 _ 5 (fun _ => true) "x"
     ⟨"a", "va", 1, 0, 0, "x"⟩ (by decide) (by decide)⟩

/-! ### Claims about the Circuit Breaker (C7) -/

/-- C7: the breaker follows the Closed to Open to Half-Open state
machine: from a fresh breaker with threshold 50 over a 10-call window,
5 failing calls leave it Closed and the 6th drives it to Open; while
Open and before the cooldown elapses every call returns failure
without reaching the backend and leaves the breaker unchanged; once the
cooldown has elapsed the single trial call reaches the backend and
closes the breaker on success or reopens it on failure, and the same
holds from the Half-Open state itself. -/
theorem c7_breaker_state_machine :
    (breakerRunFails (breakerFresh 10 50 30) [0, 1, 2, 3, 4]).state = BState.closed
    ∧ (breakerRunFails (breakerFresh 10 50 30) [0, 1, 2, 3, 4, 5]).state =
        BState.opened 5
    ∧ (∀ (b : Breaker) (now : Nat) (fails : Bool) (t : Nat),
        b.state = BState.opened t → now < t + b.cooldown →
        breakerCall b now fails = (b, false, false))
    ∧ (∀ (b : Breaker) (now t : Nat),
        b.state = BState.opened t → t + b.cooldown ≤ now →
        ((breakerCall b now true).1.state = BState.opened now
         ∧ (breakerCall b now true).2.2 = true
         ∧ (breakerCall b now false).1.state = BState.closed
         ∧ (breakerCall b now false).2.2 = true))
    ∧ (∀ (b : Breaker) (now : Nat),
        b.state = BState.halfOpen →
        ((breakerCall b now true).1.state = BState.opened now
         ∧ (breakerCall b now false).1.state = BState.closed)) := by
  refine ⟨by decide, by decide, ?_, ?_, ?_⟩
  · intro b now fails t hst hcool
    unfold breakerCall
    rw [hst]
    dsimp only
    rw [if_pos hcool]
  · intro b now t hst hcool
    unfold breakerCall
    rw [hst]
    dsimp only
    rw [if_neg (by omega), if_neg (by omega)]
    unfold breakerTrial
    exact ⟨rfl, rfl, rfl, rfl⟩
  · intro b now hst
    unfold breakerCall
    rw [hst]
    dsimp only
    unfold breakerTrial
    exact ⟨rfl, rfl⟩

/-- Witness for C7: an Open breaker (opened at 0, cooldown 30) fails a
call at instant 5 fast, without reaching the backend and without
changing state; at instant 40 the trial call's success closes it. -/
theorem c7_breaker_state_machine_witness :
    breakerCall ⟨BState.opened 0, [], 10, 50, 30⟩ 5 true =
      (⟨BState.opened 0, [], 10, 50, 30⟩, false, false)
    ∧ (breakerCall ⟨BState.opened 0, [], 10, 50, 30⟩ 40 false).1.state =
        BState.closed :=
  ⟨c7_breaker_state_machine.2.2.1 ⟨BState.opened 0, [], 10, 50, 30⟩ 5 true 0
     rfl (by decide),
   (c7_breaker_state_machine.2.2.2.1 ⟨BState.opened 0, [], 10, 50, 30⟩ 40 0
     rfl (by decide)).2.2.1⟩

/-! ### Claims about the Read Coordinator (C9) -/

theorem foldl_regMiss_some (l : List Nat) :
    ∀ (r : FetchRegistry) (ws : List Nat), r.waiters = some ws →
    l.foldl regMiss r = { waiters := some (ws ++ l), fetchCount := r.fetchCount } := by
  induction l with
  | nil =>
    intro r ws hw
    cases r with
    | mk w c =>
      simp only [List.foldl_nil, List.append_nil]
      simp only at hw
      rw [hw]
  | cons w rest ih =>
    intro r ws hw
    have hm : regMiss r w = { r with waiters := some (ws ++ [w]) } := by
      unfold regMiss
      rw [hw]
    rw [List.foldl_cons, hm, ih _ (ws ++ [w]) rfl]
    simp

/-- C9: any positive number n of concurrent cache-miss gets arriving
during one miss window register exactly one backend fetch (fetchCount
is 1, not n); all n callers are registered as waiters of that fetch,
and resolving it clears the registry and releases all n waiters with
the same outcome. -/
theorem c9_request_collapsing (n : Nat) (h : 1 ≤ n) (outcome : FetchOutcome) :
    (regMissMany n).fetchCount = 1
    ∧ (regMissMany n).waiters = some (List.range n)
    ∧ (regResolve (regMissMany n) outcome).2 =
        (List.range n).map (fun w => (w, outcome))
    ∧ (regResolve (regMissMany n) outcome).1.waiters = none := by
  obtain ⟨m, rfl⟩ : ∃ m, n = m + 1 := ⟨n - 1, by omega⟩
  have hrange : List.range (m + 1) = 0 :: List.map Nat.succ (List.range m) :=
    List.range_succ_eq_map m
  have hfold : regMissMany (m + 1) =
      { waiters := some ([0] ++ List.map Nat.succ (List.range m)),
        fetchCount := 1 } := by
    rw [regMissMany, hrange, List.foldl_cons]
    have h0 : regMiss regInit 0 = { waiters := some [0], fetchCount := 1 } := rfl
    rw [h0]
    exact foldl_regMiss_some _ _ [0] rfl
  have hws : ([0] ++ List.map Nat.succ (List.range m)) = List.range (m + 1) := by
    rw [hrange]
    rfl
  rw [hfold, hws]
  exact ⟨rfl, rfl, rfl, rfl⟩

/-- Witness for C9: 100 concurrent misses in one window make exactly
one backend fetch and are all released with the same outcome. -/
theorem c9_request_collapsing_witness :
    (regMissMany 100).fetchCount = 1
    ∧ (regMissMany 100).waiters = some (List.range 100)
    ∧ (regResolve (regMissMany 100) FetchOutcome.notFound).2 =
        (List.range 100).map (fun w => (w, FetchOutcome.notFound))
    ∧ (regResolve (regMissMany 100) FetchOutcome.notFound).1.waiters = none :=
  c9_request_collapsing 100 (by decide) FetchOutcome.notFound
